import Mathlib

/-!
Verification of the webshot-capture tool (tools/make_webshots.py).

Shallow embedding conventions:
  * Browser interactions (navigate, click, wait) are external effects; the
    outcome of one trial of one step is abstracted as an `AttemptOutcome`
    supplied by a trace function `page → trial → AttemptOutcome`.
  * Python floats are modelled as exact rationals; the monotonic clock
    contract (elapsed = monotonic() - t0 is nonnegative) enters theorems as
    an explicit hypothesis on the trace.
  * Raised exceptions are modelled with `Except String`.
  * The filesystem is a list of path strings.
-/

namespace Webshots

/-- Python `Union[float, str]`: the `time` field of a LoadStat holds either a
float number of seconds or a string error tag. -/
inductive TimeOrTag where
  | num (x : ℚ)
  | tag (s : String)
deriving Repr, DecidableEq

/-- Outcome of the navigate/act/wait body of one trial of one step, as raised
by the underlying browser driver. -/
inductive AttemptOutcome where
  | success (elapsed : ℚ)
  | timeout
  | webdriverFault (msg : String)
  | unexpected (msg : String)
deriving Repr, DecidableEq

/-- Result of the per-step trial loop: either a recorded time/tag together
with the number of trials consumed and whether a screenshot was saved, or an
exception propagating out of `process_dandiset`. -/
inductive StepResult where
  | recorded (t : TimeOrTag) (trialsUsed : ℕ) (screenshotSaved : Bool)
  | propagated (msg : String)
deriving Repr, DecidableEq

/-- Python `str.rstrip()`: drop trailing whitespace characters. -/
def pyRstrip (s : String) : String :=
  ((s.toList.reverse.dropWhile Char.isWhitespace).reverse).asString

/-- The body of `for trial in range(3)` in `process_dandiset`
(make_webshots.py lines 144-191).  Every handler of the try block exits the
loop: TimeoutException records the tag "timeout" and breaks;
WebDriverException hits the bare `raise` on line 173 (the reinitialisation
code after it is unreachable); any other exception records the stripped
message and breaks; the else branch records the elapsed time, saves the
screenshot and breaks.  `fuel` counts the remaining iterations of range(3);
since every branch exits, the fuel-exhausted case is unreachable for any
positive starting fuel. -/
def stepTrials (attempt : ℕ → AttemptOutcome) : ℕ → ℕ → StepResult
  | 0, _ => .propagated "unreachable: range(3) exhausted"
  | _ + 1, trial =>
    match attempt trial with
    | .success elapsed => .recorded (.num elapsed) (trial + 1) true
    | .timeout => .recorded (.tag "timeout") (trial + 1) false
    | .webdriverFault msg => .propagated msg
    | .unexpected msg => .recorded (.tag (pyRstrip msg)) (trial + 1) false

/-- The trial loop for one step, started with 3 iterations at trial 0. -/
def runStep (attempt : ℕ → AttemptOutcome) : StepResult :=
  stepTrials attempt 3 0

def ARCHIVE_GUI : String := "https://gui.dandiarchive.org"

/-- Known step names, in declared order (make_webshots.py line 28). -/
def PAGES : List String := ["landing", "edit-metadata", "view-data"]

/-- One entry of the step table on lines 134-137: URL suffix (None for the
edit-metadata step, which clicks instead of navigating) and page name.  The
wait and act callables are folded into the attempt trace. -/
structure StepSpec where
  urlsuf : Option String
  page : String
deriving Repr, DecidableEq

/-- The fixed step table of `process_dandiset` (lines 134-137). -/
def stepSpecs : List StepSpec :=
  [StepSpec.mk (some "") "landing",
   StepSpec.mk none "edit-metadata",
   StepSpec.mk (some "/draft/files") "view-data"]

/-- The LoadStat dataclass (lines 30-36). -/
structure LoadStat where
  dandiset : String
  page : String
  time : TimeOrTag
  label : String
  url : Option String
deriving Repr, DecidableEq

/-- LoadStat.has_time (lines 48-49): whether `time` is a float. -/
def LoadStat.has_time (st : LoadStat) : Bool :=
  match st.time with
  | .num _ => true
  | .tag _ => false

/-- Result of processing one dandiset: the LoadStat list and the
`info[times]` mapping persisted to info.yaml, in insertion order. -/
structure DsResult where
  stats : List LoadStat
  times : List (String × TimeOrTag)
deriving Repr, DecidableEq

/-- The per-step loop of `process_dandiset` (lines 134-201): for each step
run the trial loop; a propagated exception aborts the whole call, otherwise
append the step time and a LoadStat built as on lines 192-199. -/
def processSteps (ds : String) (trace : String → ℕ → AttemptOutcome) :
    List StepSpec → Except String DsResult
  | [] => .ok (DsResult.mk [] [])
  | spec :: rest =>
    match runStep (trace spec.page) with
    | .propagated msg => .error msg
    | .recorded t _ _ =>
      match processSteps ds trace rest with
      | .error msg => .error msg
      | .ok r =>
        .ok (DsResult.mk
          (LoadStat.mk ds spec.page t
            (if spec.page == "edit-metadata" then "Edit Metadata" else "Go to page")
            (spec.urlsuf.map fun suf => ARCHIVE_GUI ++ "/#/dandiset/" ++ ds ++ suf)
            :: r.stats)
          ((spec.page, t) :: r.times))

/-- process_dandiset (lines 112-205) for one dandiset, over the step table. -/
def process_dandiset (ds : String) (trace : String → ℕ → AttemptOutcome) :
    Except String DsResult :=
  processSteps ds trace stepSpecs

/-- Projection helper: the stats of a completed call, [] if it raised. -/
def statsOf (e : Except String DsResult) : List LoadStat :=
  match e with
  | .ok r => r.stats
  | .error _ => []

/-- Projection helper: whether the call completed without raising. -/
def okB (e : Except String DsResult) : Bool :=
  match e with
  | .ok _ => true
  | .error _ => false

/-! Formatting.  Python floats are modelled as exact rationals, and the
format spec `.2f` as exact round-half-even to two decimal places (the binary
rounding noise of IEEE doubles is below the two-decimal resolution for the
magnitudes involved). -/

/-- Floor of a rational, computed from numerator and denominator. -/
def qfloor (q : ℚ) : ℤ := q.num.fdiv q.den

/-- Round to nearest integer, ties to even, as Python round and the float
formatting machinery do. -/
def roundHalfEven (q : ℚ) : ℤ :=
  let f := qfloor q
  let r := q - (f : ℚ)
  if r < 1 / 2 then f
  else if 1 / 2 < r then f + 1
  else if f % 2 = 0 then f else f + 1

/-- Render a nonnegative integer below 100 with two digits. -/
def twoDigits (n : ℤ) : String :=
  (if n < 10 then "0" else "") ++ toString n

/-- Format spec `.2f` for a nonnegative value. -/
def fmt2abs (x : ℚ) : String :=
  let n := roundHalfEven (x * 100)
  toString (n / 100) ++ "." ++ twoDigits (n % 100)

/-- Python format spec `.2f`. -/
def fmt2 (x : ℚ) : String :=
  if x < 0 then "-" ++ fmt2abs (-x) else fmt2abs x

/-- LoadStat.get_columns (lines 38-46). -/
def LoadStat.get_columns (st : LoadStat) : String × String :=
  let t := match st.time with
    | .tag s => s
    | .num x => fmt2 x
  let header := "t=" ++ t
  let header := match st.url with
    | some u => header ++ " [" ++ st.label ++ "](" ++ u ++ ")"
    | none => header ++ " " ++ st.label
  (header, "![](" ++ st.dandiset ++ "/" ++ st.page ++ ".png)")

/-- render_stats (lines 52-59): one Markdown section per dandiset. -/
def render_stats (dandiset : String) (stats : List LoadStat) : String :=
  let cols := stats.map LoadStat.get_columns
  "### " ++ dandiset ++ "\n\n"
    ++ "| " ++ String.intercalate " | " (cols.map Prod.fst) ++ " |\n"
    ++ String.join (List.replicate stats.length "| --- ") ++ "|\n"
    ++ "| " ++ String.intercalate " | " (cols.map Prod.snd) ++ " |\n"
    ++ "\n"

/-- Outcome of the top-level run (lines 241-253): the per-target results in
processing order, the readme body accumulated across the loop, the flat stat
list, whether driver.quit() on line 253 was reached, and the exception that
propagated, if any. -/
structure RunOutcome where
  processed : List (String × List LoadStat)
  readme : String
  allstats : List LoadStat
  quitCalled : Bool
  exc : Option String
deriving Repr, DecidableEq

/-- The per-target loop of the top level (lines 246-253).  The source has no
try/finally around the loop: driver.quit() on line 253 executes only when
every process_dandiset call returned normally; an exception raised inside
the loop propagates past the quit call.  The trace gives, per dandiset, the
attempt trace for its steps. -/
def mainLoop (trace : String → String → ℕ → AttemptOutcome) :
    List String → RunOutcome
  | [] => RunOutcome.mk [] "" [] true none
  | ds :: rest =>
    match process_dandiset ds (trace ds) with
    | .error msg => RunOutcome.mk [] "" [] false (some msg)
    | .ok r =>
      let o := mainLoop trace rest
      RunOutcome.mk ((ds, r.stats) :: o.processed)
        (render_stats ds r.stats ++ o.readme)
        (r.stats ++ o.allstats)
        o.quitCalled
        o.exc

/-! Aggregate statistics table (lines 256-283). -/

/-- The page_stats accumulation (lines 258-264): the LoadStats of one page
that carry a float time, in allstats order. -/
def floatStats (allstats : List LoadStat) (page : String) : List LoadStat :=
  allstats.filter fun st => st.page == page && st.has_time

/-- The errors accumulation (lines 258-264): dandisets of the LoadStats of
one page that carry a string tag, in allstats order. -/
def pageErrors (allstats : List LoadStat) (page : String) : List String :=
  (allstats.filter fun st => st.page == page && !st.has_time).map LoadStat.dandiset

/-- The attrgetter("time") key used by min and max on line 268 and 274; it is
only ever applied to entries that carry a float time. -/
def statTime (st : LoadStat) : ℚ :=
  match st.time with
  | .num x => x
  | .tag _ => 0

/-- Python min(xs, key) as a left fold: the accumulator is replaced exactly
when the new key is strictly smaller, so the first minimal element wins. -/
def pyMinBy {α : Type} (key : α → ℚ) : α → List α → α
  | best, [] => best
  | best, x :: xs => pyMinBy key (if key x < key best then x else best) xs

/-- Python max(xs, key) as a left fold: the accumulator is replaced exactly
when the new key is strictly larger, so the first maximal element wins. -/
def pyMaxBy {α : Type} (key : α → ℚ) : α → List α → α
  | best, [] => best
  | best, x :: xs => pyMaxBy key (if key best < key x then x else best) xs

/-- statistics.mean: sum over count. -/
def pyMean (l : List ℚ) : ℚ := l.sum / l.length

/-- Square of statistics.pstdev(l, mu): the population variance about the
given mu, sum of squared deviations over the count n (not n - 1).  The
standard deviation itself is the square root of this value; the square root
of a float is an external numeric call, kept abstract in rendering, and
since it is strictly monotone on nonnegative reals the population-versus-
sample question is decided entirely by this value. -/
def pyPvariance (l : List ℚ) (mu : ℚ) : ℚ :=
  (l.map fun x => (x - mu) ^ 2).sum / l.length

/-- Spec phrase: the arithmetic mean of the times. -/
def specMean (l : List ℚ) : ℚ := l.sum / l.length

/-- Spec phrase: the population variance, squared deviations about the mean
divided by n. -/
def specPopVar (l : List ℚ) : ℚ :=
  (l.map fun x => (x - specMean l) ^ 2).sum / l.length

/-- Spec contrast: the sample variance, squared deviations about the mean
divided by n - 1. -/
def specSampleVar (l : List ℚ) : ℚ :=
  (l.map fun x => (x - specMean l) ^ 2).sum / ((l.length : ℚ) - 1)

/-- One row of the aggregate statistics table, structured.  A cell holding
none renders as the em-dash placeholder.  minCell and maxCell carry the
extremal time and the dandiset the cell links back to; meanVar carries the
mean and the squared population standard deviation (see pyPvariance). -/
structure AggRow where
  page : String
  minCell : Option (ℚ × String)
  meanVar : Option (ℚ × ℚ)
  maxCell : Option (ℚ × String)
  errs : List String
deriving Repr, DecidableEq

/-- Row construction for one page (lines 266-281): if some stats carry a
float time, take min and max by the time key, the mean, and the population
variance about that mean; otherwise all three cells are the placeholder. -/
def mkRow (allstats : List LoadStat) (page : String) : AggRow :=
  match floatStats allstats page with
  | [] => AggRow.mk page none none none (pageErrors allstats page)
  | s :: rest =>
    let minstat := pyMinBy statTime s rest
    let maxstat := pyMaxBy statTime s rest
    let times := (s :: rest).map statTime
    let mean := pyMean times
    AggRow.mk page
      (some (statTime minstat, minstat.dandiset))
      (some (mean, pyPvariance times mean))
      (some (statTime maxstat, maxstat.dandiset))
      (pageErrors allstats page)

/-- The rows of the aggregate table (line 265): one per entry of PAGES, in
order. -/
def aggRows (allstats : List LoadStat) : List AggRow :=
  PAGES.map (mkRow allstats)

/-- The em-dash placeholder (lines 277 and 281). -/
def dash : String := "—"

/-- Rendering of a min or max cell (lines 269 and 275): the time to two
decimals and an anchor link back to the extremal dandiset. -/
def renderTimeCell : Option (ℚ × String) → String
  | none => dash
  | some (t, ds) => fmt2 t ++ "s ([" ++ ds ++ "](#" ++ ds ++ "))"

/-- Rendering of the mean cell (line 273); sq is the external float square
root applied by statistics.pstdev to the population variance. -/
def renderMeanCell (sq : ℚ → ℚ) : Option (ℚ × ℚ) → String
  | none => dash
  | some (m, v) => fmt2 m ++ "s ± " ++ fmt2 (sq v) ++ "s"

/-- Rendering of the error-list cell (lines 278-281). -/
def renderErrs : List String → String
  | [] => dash
  | es => String.intercalate ", " (es.map fun ds => "[" ++ ds ++ "](#" ++ ds ++ ")")

/-- One rendered table line (line 282). -/
def renderRow (sq : ℚ → ℚ) (r : AggRow) : String :=
  "| " ++ r.page ++ " | " ++ renderTimeCell r.minCell ++ " | "
    ++ renderMeanCell sq r.meanVar ++ " | " ++ renderTimeCell r.maxCell
    ++ " | " ++ renderErrs r.errs ++ " |\n"

/-- The whole statistics table (lines 256-282). -/
def statTbl (sq : ℚ → ℚ) (allstats : List LoadStat) : String :=
  "| Page | Min Time | Mean ± StdDev | Max Time | Errors |\n"
    ++ "| --- | --- | --- | --- | --- |\n"
    ++ String.join ((aggRows allstats).map (renderRow sq))

/-! Catalog query and target order. -/

/-- One entry of the results list returned by the catalog query; only the
identifier field is read (line 66). -/
structure ApiDandiset where
  identifier : String
deriving Repr, DecidableEq

/-- get_dandisets (lines 61-66): the identifiers of all catalog entries,
sorted ascending.  Python sorted is a stable ascending sort under the
lexicographic string order; insertion sort is the same function. -/
def get_dandisets (results : List ApiDandiset) : List String :=
  List.insertionSort (· ≤ ·) (results.map ApiDandiset.identifier)

/-- The no-argument branch of the top level (lines 237-252): the targets are
the sorted catalog identifiers. -/
def mainNoArgs (results : List ApiDandiset) (trace : String → String → ℕ → AttemptOutcome) :
    RunOutcome :=
  mainLoop trace (get_dandisets results)

/-! Login button label check (lines 73-79). -/

/-- Whitespace test on characters, shared by strip and the commuting
lemmas. -/
def isWsC (c : Char) : Bool := c.isWhitespace

/-- Python str.lower, modelled per character. -/
def pyLower (s : String) : String := (s.toList.map Char.toLower).asString

/-- Python str.strip on a character list: drop leading whitespace, then drop
trailing whitespace via reverse. -/
def stripChars (l : List Char) : List Char :=
  ((l.dropWhile isWsC).reverse.dropWhile isWsC).reverse

/-- Python str.strip. -/
def pyStrip (s : String) : String := (stripChars s.toList).asString

/-- Whether the second list begins with the first. -/
def startsWithChars : List Char → List Char → Bool
  | [], _ => true
  | _ :: _, [] => false
  | a :: as, b :: bs => a == b && startsWithChars as bs

/-- Python substring containment `needle in hay` on character lists. -/
def hasSub (needle : List Char) : List Char → Bool
  | [] => needle.isEmpty
  | c :: rest => startsWithChars needle (c :: rest) || hasSub needle rest

/-- Lines 76-77: login_text = button text stripped and lowered, and the
assert checks that "log in" occurs in login_text lowered once more.  True
means the assert passes. -/
def loginCheckPasses (label : String) : Bool :=
  hasSub "log in".toList (pyLower (pyLower (pyStrip label))).toList

/-- Modelled from the spec words for the same check: the visible label,
compared case-insensitively, contains the word "log in". -/
def specContainsLogInCI (label : String) : Bool :=
  hasSub (pyLower "log in").toList (pyLower label).toList

/-! Screenshot removal (line 145). -/

/-- pathlib Path.unlink over a filesystem modelled as a list of paths: the
path is removed when present; when absent, missing_ok decides between
returning unchanged and raising FileNotFoundError. -/
def pathUnlink (missing_ok : Bool) (fs : List String) (p : String) :
    Except String (List String) :=
  if p ∈ fs then .ok (fs.erase p)
  else if missing_ok then .ok fs
  else .error "FileNotFoundError"

/-- The canonical screenshot path of one step of one dandiset. -/
def screenshotPath (ds page : String) : String := ds ++ "/" ++ page ++ ".png"

/-- Line 145: page_name.with_suffix(".png").unlink(missing_ok=True). -/
def removeStaleScreenshot (fs : List String) (ds page : String) :
    Except String (List String) :=
  pathUnlink true fs (screenshotPath ds page)

/-! Concrete inputs used by counterexamples and witnesses. -/

/-- Claim C3 well-formedness predicate, as the claim states it: the time is
a valid nonnegative float or a nonempty string tag. -/
def timeWF : TimeOrTag → Bool
  | .num x => decide (0 ≤ x)
  | .tag s => !(s == "")

/-- Trace on which every attempt of every target raises a
WebDriverException. -/
def c1trace : String → String → ℕ → AttemptOutcome :=
  fun _ _ _ => .webdriverFault "invalid session id"

/-- Attempt trace whose first trial raises a WebDriverException and whose
later trials would succeed in one second. -/
def c2attempts : ℕ → AttemptOutcome :=
  fun n => if n == 0 then .webdriverFault "invalid session id" else .success 1

/-- Trace whose landing step raises an unexpected exception that stringifies
to whitespace only; the other steps succeed. -/
def c3trace : String → ℕ → AttemptOutcome :=
  fun page _ => if page == "landing" then .unexpected "  " else .success 1

/-- Trace whose edit-metadata step times out on every trial; the other
steps succeed. -/
def c4trace : String → ℕ → AttemptOutcome :=
  fun page _ => if page == "edit-metadata" then .timeout else .success 1

/-- Trace on which every step of every target succeeds in one second. -/
def allOkTrace : String → String → ℕ → AttemptOutcome :=
  fun _ _ _ => .success 1

/-- Concatenation of a list of strings, used to state how the readme
accumulates across loop iterations. -/
def joinAll : List String → String
  | [] => ""
  | s :: rest => s ++ joinAll rest

/-- Stats list with a single errored landing entry, for the all-errored
aggregate row. -/
def c6stats : List LoadStat :=
  [LoadStat.mk "000001" "landing" (.tag "timeout") "Go to page" none]

/-- Stats list with two successful landing entries of times 1 and 3. -/
def c7stats : List LoadStat :=
  [LoadStat.mk "000001" "landing" (.num 1) "Go to page" none,
   LoadStat.mk "000002" "landing" (.num 3) "Go to page" none]

/-- Catalog response listing identifiers out of order. -/
def c10results : List ApiDandiset :=
  [ApiDandiset.mk "000003", ApiDandiset.mk "000001", ApiDandiset.mk "000002"]

/-! Helper lemmas. -/

/-- Since every branch of the trial body exits the loop, the trial loop is
decided entirely by the outcome of trial 0. -/
theorem aux_runStep_eq (attempt : ℕ → AttemptOutcome) :
    runStep attempt =
      match attempt 0 with
      | .success e => .recorded (.num e) 1 true
      | .timeout => .recorded (.tag "timeout") 1 false
      | .webdriverFault m => .propagated m
      | .unexpected m => .recorded (.tag (pyRstrip m)) 1 false := rfl

/-- When no trial raises a WebDriverException, the step loop over any spec
list completes, produces one LoadStat per spec in order, and each recorded
time is the one the trial loop returned for its page. -/
theorem aux_processSteps_ok (ds : String) (trace : String → ℕ → AttemptOutcome)
    (specs : List StepSpec)
    (h : ∀ p n m, trace p n ≠ .webdriverFault m) :
    ∃ r, processSteps ds trace specs = .ok r
      ∧ r.stats.map LoadStat.page = specs.map StepSpec.page
      ∧ ∀ st ∈ r.stats, ∃ nn b, runStep (trace st.page) = .recorded st.time nn b := by
  induction specs with
  | nil => exact ⟨DsResult.mk [] [], rfl, rfl, by intro st hst; cases hst⟩
  | cons spec rest ih =>
    have hrec : ∃ t b, runStep (trace spec.page) = .recorded t 1 b := by
      rw [aux_runStep_eq]
      cases hc : trace spec.page 0 with
      | success e => exact ⟨_, _, rfl⟩
      | timeout => exact ⟨_, _, rfl⟩
      | webdriverFault m => exact absurd hc (h _ _ _)
      | unexpected m => exact ⟨_, _, rfl⟩
    obtain ⟨t, b, hrec⟩ := hrec
    obtain ⟨r, hr, hmap, hall⟩ := ih
    refine ⟨DsResult.mk
      (LoadStat.mk ds spec.page t
        (if spec.page == "edit-metadata" then "Edit Metadata" else "Go to page")
        (spec.urlsuf.map fun suf => ARCHIVE_GUI ++ "/#/dandiset/" ++ ds ++ suf)
        :: r.stats)
      ((spec.page, t) :: r.times), ?_, ?_, ?_⟩
    · simp only [processSteps, hrec, hr]
    · simp only [List.map_cons, hmap]
    · intro st hst
      rcases List.mem_cons.mp hst with heq | hmem
      · subst heq
        exact ⟨1, b, hrec⟩
      · exact hall st hmem

/-- The quit flag of the top-level loop is true exactly when no exception
propagated. -/
theorem aux_mainLoop_quit (trace : String → String → ℕ → AttemptOutcome)
    (l : List String) :
    (mainLoop trace l).quitCalled = true ↔ (mainLoop trace l).exc = none := by
  induction l with
  | nil => simp [mainLoop]
  | cons ds rest ih =>
    cases hp : process_dandiset ds (trace ds) with
    | error msg => simp [mainLoop, hp]
    | ok r => simpa [mainLoop, hp] using ih

/-- When the top-level loop completes without exception, the processed
targets are exactly the input list, in order. -/
theorem aux_mainLoop_processed (trace : String → String → ℕ → AttemptOutcome)
    (l : List String) (h : (mainLoop trace l).exc = none) :
    (mainLoop trace l).processed.map Prod.fst = l := by
  induction l with
  | nil => rfl
  | cons ds rest ih =>
    cases hp : process_dandiset ds (trace ds) with
    | error msg => rw [mainLoop, hp] at h; cases h
    | ok r =>
      rw [mainLoop, hp] at h ⊢
      simpa using ih h

/-- The readme body accumulated by the top-level loop is the concatenation
of the rendered section of each processed target, in processing order. -/
theorem aux_mainLoop_readme (trace : String → String → ℕ → AttemptOutcome)
    (l : List String) :
    (mainLoop trace l).readme =
      joinAll ((mainLoop trace l).processed.map fun p => render_stats p.1 p.2) := by
  induction l with
  | nil => rfl
  | cons ds rest ih =>
    cases hp : process_dandiset ds (trace ds) with
    | error msg => simp [mainLoop, hp, joinAll]
    | ok r => simp [mainLoop, hp, joinAll, ih]

/-! Claim C1. -/

/-- Claim C1 counterexample: with one target whose processing raises a
WebDriverException, the exception propagates out of the per-target loop and
driver.quit() is never reached, so the session is not released — refuting
the claim that the run releases the session even when a target raises. -/
theorem c1_quit_skipped_cex :
    (mainLoop c1trace ["000001"]).exc = some "invalid session id"
      ∧ (mainLoop c1trace ["000001"]).quitCalled = false := by
  exact ⟨rfl, rfl⟩

/-- Claim C1, amended: the top-level run releases the browser session if and
only if the per-target loop completes without a propagating exception; a
raise from the processing of a target skips driver.quit(), since the loop
has no try/finally. -/
theorem c1_quit_iff_no_exception (trace : String → String → ℕ → AttemptOutcome)
    (targets : List String) :
    (mainLoop trace targets).quitCalled = true ↔ (mainLoop trace targets).exc = none :=
  aux_mainLoop_quit trace targets

/-! Claim C2. -/

/-- Claim C2 counterexample: an attempt trace whose first trial raises a
WebDriverException and whose second trial would succeed still makes the step
propagate the exception with no retry and no fresh session — the bare raise
on line 173 precedes the reinitialisation code, which is unreachable —
refuting the claim that the step is retried with a fresh session. -/
theorem c2_no_retry_cex :
    runStep c2attempts = .propagated "invalid session id"
      ∧ c2attempts 1 = .success 1 := by
  exact ⟨rfl, rfl⟩

/-- Claim C2, amended: when a trial raises a WebDriverException the
exception propagates immediately out of the trial loop and out of
process_dandiset, aborting the run; no retry happens, no fresh session is
constructed, and the old session is not closed at that point (the
reinitialisation branch after the raise is dead code). -/
theorem c2_webdriver_fault_propagates (ds : String)
    (trace : String → ℕ → AttemptOutcome) (msg : String)
    (h : trace "landing" 0 = .webdriverFault msg) :
    runStep (trace "landing") = .propagated msg
      ∧ process_dandiset ds trace = .error msg := by
  have hrs : runStep (trace "landing") = .propagated msg := by
    rw [aux_runStep_eq, h]
  refine ⟨hrs, ?_⟩
  simp only [process_dandiset, stepSpecs, processSteps, hrs]

/-- Witness for claim C2: the amended theorem applied to the concrete trace
whose first landing trial raises an invalid-session fault. -/
theorem c2_webdriver_fault_propagates_witness :
    process_dandiset "000001" (fun _ n => c2attempts n) = .error "invalid session id" :=
  (c2_webdriver_fault_propagates "000001" (fun _ n => c2attempts n)
    "invalid session id" rfl).2

/-- Every LoadStat produced by a completed call records exactly the time the
trial loop returned for its page. -/
theorem aux_processSteps_stats (ds : String) (trace : String → ℕ → AttemptOutcome) :
    ∀ (specs : List StepSpec) (r : DsResult),
      processSteps ds trace specs = .ok r →
      ∀ st ∈ r.stats, ∃ nn b, runStep (trace st.page) = .recorded st.time nn b := by
  intro specs
  induction specs with
  | nil =>
    intro r hr st hst
    simp only [processSteps] at hr
    cases hr
    exact absurd hst (by simp)
  | cons spec rest ih =>
    intro r hr st hst
    cases hrs : runStep (trace spec.page) with
    | propagated m =>
      simp only [processSteps, hrs] at hr
      cases hr
    | recorded t nn b =>
      simp only [processSteps, hrs] at hr
      cases hpr : processSteps ds trace rest with
      | error m => rw [hpr] at hr; cases hr
      | ok r2 =>
        rw [hpr] at hr
        cases hr
        rcases List.mem_cons.mp hst with heq | hmem
        · subst heq
          exact ⟨nn, b, hrs⟩
        · exact ih r2 hpr st hmem

/-! Claim C3. -/

/-- Claim C3 counterexample: when the landing step raises an unexpected
exception whose stringification is whitespace only, the recorded tag is the
empty string, violating the stated invariant that a string tag is always
nonempty. -/
theorem c3_empty_tag_cex :
    ((statsOf (process_dandiset "000001" c3trace)).all fun st => timeWF st.time) = false
      ∧ (statsOf (process_dandiset "000001" c3trace)).head?.map LoadStat.time
          = some (.tag "") := by
  exact ⟨rfl, rfl⟩

/-- Claim C3, amended: the time of every produced LoadStat holds exactly one
of a float or a string by construction; a float time is nonnegative whenever
the clock deltas of the trace are nonnegative (the monotonic clock
contract); a string tag is either the literal "timeout" or the right-strip
of the message of the unexpected exception of that step — and the latter is
empty exactly when the message is whitespace only, so nonemptiness does not
hold in general. -/
theorem c3_time_partition (ds : String) (trace : String → ℕ → AttemptOutcome)
    (hmono : ∀ p n e, trace p n = .success e → 0 ≤ e) :
    ∀ st ∈ statsOf (process_dandiset ds trace),
      (∀ x, st.time = .num x → 0 ≤ x)
      ∧ (∀ s, st.time = .tag s →
          s = "timeout" ∨ ∃ m, trace st.page 0 = .unexpected m ∧ s = pyRstrip m) := by
  intro st hst
  cases hpd : process_dandiset ds trace with
  | error m => simp [statsOf, hpd] at hst
  | ok r =>
    have hst2 : st ∈ r.stats := by simpa [statsOf, hpd] using hst
    obtain ⟨nn, b, hrec⟩ := aux_processSteps_stats ds trace stepSpecs r hpd st hst2
    rw [aux_runStep_eq] at hrec
    cases hc : trace st.page 0 <;> rw [hc] at hrec
    case success e =>
      obtain ⟨h1, -, -⟩ := (StepResult.recorded.injEq _ _ _ _ _ _).mp hrec
      constructor
      · intro x hx
        rw [← h1] at hx
        cases hx
        exact hmono _ _ _ hc
      · intro s hs
        rw [← h1] at hs
        cases hs
    case timeout =>
      obtain ⟨h1, -, -⟩ := (StepResult.recorded.injEq _ _ _ _ _ _).mp hrec
      constructor
      · intro x hx
        rw [← h1] at hx
        cases hx
      · intro s hs
        rw [← h1] at hs
        cases hs
        exact Or.inl rfl
    case webdriverFault m => cases hrec
    case unexpected m =>
      obtain ⟨h1, -, -⟩ := (StepResult.recorded.injEq _ _ _ _ _ _).mp hrec
      constructor
      · intro x hx
        rw [← h1] at hx
        cases hx
      · intro s hs
        rw [← h1] at hs
        cases hs
        exact Or.inr ⟨m, rfl, rfl⟩

/-- Witness for claim C3: the amended theorem applied to the concrete run
whose edit-metadata step succeeds in one second; its LoadStat is produced
and the float bound evaluates. -/
theorem c3_time_partition_witness :
    LoadStat.mk "000001" "edit-metadata" (.num 1) "Edit Metadata" none
        ∈ statsOf (process_dandiset "000001" c3trace)
      ∧ (0 : ℚ) ≤ 1 := by
  have hmono : ∀ p n e, c3trace p n = .success e → 0 ≤ e := by
    intro p n e h
    unfold c3trace at h
    split at h
    · cases h
    · cases h
      norm_num
  refine ⟨by decide, ?_⟩
  exact (c3_time_partition "000001" c3trace hmono
    (LoadStat.mk "000001" "edit-metadata" (.num 1) "Edit Metadata" none)
    (by decide)).1 1 rfl

/-! Claim C4. -/

/-- Claim C4: a timeout on the first trial of a step records exactly the tag
"timeout" for that step, terminates the trial loop after a single attempt
without consuming the remaining retries, and processing continues with the
remaining steps of the target rather than aborting the run. -/
theorem c4_timeout_recorded (ds : String) (trace : String → ℕ → AttemptOutcome)
    (page : String) (ht : trace page 0 = .timeout)
    (hw : ∀ p n m, trace p n ≠ .webdriverFault m) :
    runStep (trace page) = .recorded (.tag "timeout") 1 false
      ∧ okB (process_dandiset ds trace) = true
      ∧ (statsOf (process_dandiset ds trace)).map LoadStat.page = PAGES
      ∧ ∀ st ∈ statsOf (process_dandiset ds trace),
          st.page = page → st.time = .tag "timeout" := by
  have hrs : runStep (trace page) = .recorded (.tag "timeout") 1 false := by
    rw [aux_runStep_eq, ht]
  obtain ⟨r, hr, hmap, hall⟩ := aux_processSteps_ok ds trace stepSpecs hw
  have hso : statsOf (process_dandiset ds trace) = r.stats := by
    simp [statsOf, process_dandiset, hr]
  refine ⟨hrs, ?_, ?_, ?_⟩
  · simp [okB, process_dandiset, hr]
  · rw [hso, hmap]; rfl
  · intro st hst hpg
    obtain ⟨nn, b, hrec⟩ := hall st (by rwa [hso] at hst)
    rw [hpg, hrs] at hrec
    exact (StepResult.recorded.injEq _ _ _ _ _ _).mp hrec.symm |>.1

/-- Witness for claim C4: the theorem applied to the trace whose
edit-metadata step times out while the other steps succeed. -/
theorem c4_timeout_recorded_witness :
    (statsOf (process_dandiset "000001" c4trace)).map LoadStat.page = PAGES
      ∧ ∀ st ∈ statsOf (process_dandiset "000001" c4trace),
          st.page = "edit-metadata" → st.time = .tag "timeout" := by
  have h := c4_timeout_recorded "000001" c4trace "edit-metadata" rfl
    (by intro p n m hc; simp [c4trace] at hc; split at hc <;> cases hc)
  exact ⟨h.2.2.1, h.2.2.2⟩

/-! Claims C5 and C6. -/

/-- The page field of a constructed row is the page it was built for, in
both branches of the construction. -/
theorem aux_mkRow_page (allstats : List LoadStat) (page : String) :
    (mkRow allstats page).page = page := by
  simp only [mkRow]
  split <;> rfl

/-- Claim C5: for every collection of per-target results, the aggregate
statistics table has exactly one row per known step name, in the fixed
declared order landing, edit-metadata, view-data, however many targets
errored and however many LoadStat entries each step has. -/
theorem c5_one_row_per_page (allstats : List LoadStat) :
    (aggRows allstats).map AggRow.page = PAGES
      ∧ (aggRows allstats).length = PAGES.length
      ∧ PAGES = ["landing", "edit-metadata", "view-data"] := by
  refine ⟨?_, by simp [aggRows], rfl⟩
  simp [aggRows, List.map_map, Function.comp_def, aux_mkRow_page]

/-- Claim C6: when no LoadStat of a step carries a float time, the min,
mean-stddev and max cells of that row are all the dash placeholder, and the
error-list cell lists exactly the dandisets that have a LoadStat for that
step, in order. -/
theorem c6_zero_success_row (allstats : List LoadStat) (page : String)
    (h : floatStats allstats page = []) :
    (mkRow allstats page).minCell = none
      ∧ (mkRow allstats page).meanVar = none
      ∧ (mkRow allstats page).maxCell = none
      ∧ (mkRow allstats page).errs
          = (allstats.filter fun st => st.page == page).map LoadStat.dandiset
      ∧ renderTimeCell none = dash
      ∧ ∀ sq, renderMeanCell sq none = dash := by
  have hrow : mkRow allstats page
      = AggRow.mk page none none none (pageErrors allstats page) := by
    simp only [mkRow, h]
  have hnil : ∀ st ∈ allstats, ¬((st.page == page) && st.has_time) = true :=
    List.filter_eq_nil_iff.mp h
  have herr : pageErrors allstats page
      = (allstats.filter fun st => st.page == page).map LoadStat.dandiset := by
    unfold pageErrors
    congr 1
    apply List.filter_congr
    intro st hst
    have hnot := hnil st hst
    cases hp : (st.page == page) <;> cases htm : st.has_time <;> simp_all
  exact ⟨by rw [hrow], by rw [hrow], by rw [hrow], by rw [hrow]; exact herr,
    rfl, fun sq => rfl⟩

/-- Witness for claim C6: a stats list whose only landing entry errored
gives a row with all three placeholder cells and that target in the error
list. -/
theorem c6_zero_success_row_witness :
    floatStats c6stats "landing" = []
      ∧ (mkRow c6stats "landing").minCell = none
      ∧ (mkRow c6stats "landing").errs = ["000001"] := by
  have h := c6_zero_success_row c6stats "landing" rfl
  refine ⟨rfl, h.1, ?_⟩
  rw [h.2.2.2.1]
  rfl

/-! Claim C7. -/

/-- The min fold returns its seed or a list element. -/
theorem aux_pyMinBy_mem {α : Type} (key : α → ℚ) :
    ∀ (l : List α) (b : α), pyMinBy key b l = b ∨ pyMinBy key b l ∈ l := by
  intro l
  induction l with
  | nil => intro b; exact Or.inl rfl
  | cons a t ih =>
    intro b
    have hunf : pyMinBy key b (a :: t)
        = pyMinBy key (if key a < key b then a else b) t := rfl
    rw [hunf]
    by_cases hab : key a < key b
    · rw [if_pos hab]
      rcases ih a with h | h
      · rw [h]; exact Or.inr (List.mem_cons_self a t)
      · exact Or.inr (List.mem_cons_of_mem a h)
    · rw [if_neg hab]
      rcases ih b with h | h
      · exact Or.inl h
      · exact Or.inr (List.mem_cons_of_mem a h)

/-- The key of the min fold result is a lower bound of the seed key and of
every list element key. -/
theorem aux_pyMinBy_le {α : Type} (key : α → ℚ) :
    ∀ (l : List α) (b : α),
      key (pyMinBy key b l) ≤ key b ∧ ∀ x ∈ l, key (pyMinBy key b l) ≤ key x := by
  intro l
  induction l with
  | nil => intro b; exact ⟨le_refl _, by intro x hx; cases hx⟩
  | cons a t ih =>
    intro b
    have hunf : pyMinBy key b (a :: t)
        = pyMinBy key (if key a < key b then a else b) t := rfl
    rw [hunf]
    have h2 := ih (if key a < key b then a else b)
    have hb2b : key (if key a < key b then a else b) ≤ key b := by
      split
      · exact le_of_lt (by assumption)
      · exact le_refl _
    have hb2a : key (if key a < key b then a else b) ≤ key a := by
      split
      · exact le_refl _
      · exact le_of_not_lt (by assumption)
    refine ⟨le_trans h2.1 hb2b, ?_⟩
    intro x hx
    rcases List.mem_cons.mp hx with rfl | hmem
    · exact le_trans h2.1 hb2a
    · exact h2.2 x hmem

/-- The max fold returns its seed or a list element. -/
theorem aux_pyMaxBy_mem {α : Type} (key : α → ℚ) :
    ∀ (l : List α) (b : α), pyMaxBy key b l = b ∨ pyMaxBy key b l ∈ l := by
  intro l
  induction l with
  | nil => intro b; exact Or.inl rfl
  | cons a t ih =>
    intro b
    have hunf : pyMaxBy key b (a :: t)
        = pyMaxBy key (if key b < key a then a else b) t := rfl
    rw [hunf]
    by_cases hab : key b < key a
    · rw [if_pos hab]
      rcases ih a with h | h
      · rw [h]; exact Or.inr (List.mem_cons_self a t)
      · exact Or.inr (List.mem_cons_of_mem a h)
    · rw [if_neg hab]
      rcases ih b with h | h
      · exact Or.inl h
      · exact Or.inr (List.mem_cons_of_mem a h)

/-- The key of the max fold result is an upper bound of the seed key and of
every list element key. -/
theorem aux_pyMaxBy_ge {α : Type} (key : α → ℚ) :
    ∀ (l : List α) (b : α),
      key b ≤ key (pyMaxBy key b l) ∧ ∀ x ∈ l, key x ≤ key (pyMaxBy key b l) := by
  intro l
  induction l with
  | nil => intro b; exact ⟨le_refl _, by intro x hx; cases hx⟩
  | cons a t ih =>
    intro b
    have hunf : pyMaxBy key b (a :: t)
        = pyMaxBy key (if key b < key a then a else b) t := rfl
    rw [hunf]
    have h2 := ih (if key b < key a then a else b)
    have hb2b : key b ≤ key (if key b < key a then a else b) := by
      split
      · exact le_of_lt (by assumption)
      · exact le_refl _
    have hb2a : key a ≤ key (if key b < key a then a else b) := by
      split
      · exact le_refl _
      · exact le_of_not_lt (by assumption)
    refine ⟨le_trans hb2b h2.1, ?_⟩
    intro x hx
    rcases List.mem_cons.mp hx with rfl | hmem
    · exact le_trans hb2a h2.1
    · exact h2.2 x hmem

/-- Claim C7: for a step with at least one float observation, the row is
computed only over the float-carrying entries: the min and max cells hold
the extremal entries together with the dandiset they link back to, the mean
is the arithmetic mean of those times, and the squared standard deviation is
the population variance (denominator n, not n - 1). -/
theorem c7_row_statistics (allstats : List LoadStat) (page : String)
    (s : LoadStat) (rest : List LoadStat)
    (h : floatStats allstats page = s :: rest) :
    pyMinBy statTime s rest ∈ s :: rest
      ∧ (∀ st ∈ s :: rest, statTime (pyMinBy statTime s rest) ≤ statTime st)
      ∧ pyMaxBy statTime s rest ∈ s :: rest
      ∧ (∀ st ∈ s :: rest, statTime st ≤ statTime (pyMaxBy statTime s rest))
      ∧ (mkRow allstats page).minCell
          = some (statTime (pyMinBy statTime s rest), (pyMinBy statTime s rest).dandiset)
      ∧ (mkRow allstats page).maxCell
          = some (statTime (pyMaxBy statTime s rest), (pyMaxBy statTime s rest).dandiset)
      ∧ (mkRow allstats page).meanVar
          = some (specMean ((s :: rest).map statTime),
                  specPopVar ((s :: rest).map statTime)) := by
  have hminmem : pyMinBy statTime s rest ∈ s :: rest := by
    rcases aux_pyMinBy_mem statTime rest s with he | he
    · rw [he]; exact List.mem_cons_self s rest
    · exact List.mem_cons_of_mem s he
  have hmaxmem : pyMaxBy statTime s rest ∈ s :: rest := by
    rcases aux_pyMaxBy_mem statTime rest s with he | he
    · rw [he]; exact List.mem_cons_self s rest
    · exact List.mem_cons_of_mem s he
  have hminle : ∀ st ∈ s :: rest, statTime (pyMinBy statTime s rest) ≤ statTime st := by
    intro st hst
    rcases List.mem_cons.mp hst with rfl | hmem
    · exact (aux_pyMinBy_le statTime rest st).1
    · exact (aux_pyMinBy_le statTime rest s).2 st hmem
  have hmaxge : ∀ st ∈ s :: rest, statTime st ≤ statTime (pyMaxBy statTime s rest) := by
    intro st hst
    rcases List.mem_cons.mp hst with rfl | hmem
    · exact (aux_pyMaxBy_ge statTime rest st).1
    · exact (aux_pyMaxBy_ge statTime rest s).2 st hmem
  refine ⟨hminmem, hminle, hmaxmem, hmaxge, ?_, ?_, ?_⟩
  · simp only [mkRow, h]
  · simp only [mkRow, h]
  · simp only [mkRow, h]
    rfl

/-- Witness for claim C7: two landing observations of 1 and 3 seconds give
min cell (1, target 000001), max cell (3, target 000002), mean 2 and
population variance 1; the sample variance at the same input is 2, so the
two notions differ here and the computed one is the population one. -/
theorem c7_row_statistics_witness :
    (mkRow c7stats "landing").minCell = some (1, "000001")
      ∧ (mkRow c7stats "landing").maxCell = some (3, "000002")
      ∧ (mkRow c7stats "landing").meanVar = some (2, 1)
      ∧ specSampleVar ([LoadStat.mk "000001" "landing" (.num 1) "Go to page" none,
          LoadStat.mk "000002" "landing" (.num 3) "Go to page" none].map statTime) = 2 := by
  have h := c7_row_statistics c7stats "landing"
    (LoadStat.mk "000001" "landing" (.num 1) "Go to page" none)
    [LoadStat.mk "000002" "landing" (.num 3) "Go to page" none]
    rfl
  refine ⟨h.2.2.2.2.1.trans (by decide), h.2.2.2.2.2.1.trans (by decide),
    h.2.2.2.2.2.2.trans ?_, ?_⟩
  · simp only [List.map, statTime]
    norm_num [specMean, specPopVar]
  · simp only [List.map, statTime]
    norm_num [specSampleVar, specMean]

/-! Claim C10. -/

/-- Claim C10: with no command-line targets, the identifiers fetched from
the catalog are processed in ascending lexicographic order whatever order
the catalog returned them in — the processing order is sorted, is a
permutation of the fetched identifiers, and equals the full sorted list when
the run completes — and the per-target readme sections are concatenated in
exactly that processing order. -/
theorem c10_sorted_order (results : List ApiDandiset)
    (trace : String → String → ℕ → AttemptOutcome) :
    List.Sorted (· ≤ ·) (get_dandisets results)
      ∧ List.Perm (get_dandisets results) (results.map ApiDandiset.identifier)
      ∧ ((mainNoArgs results trace).exc = none →
          (mainNoArgs results trace).processed.map Prod.fst = get_dandisets results)
      ∧ (mainNoArgs results trace).readme
          = joinAll ((mainNoArgs results trace).processed.map fun p => render_stats p.1 p.2) := by
  refine ⟨List.sorted_insertionSort _ _, List.perm_insertionSort _ _, ?_, ?_⟩
  · intro h
    exact aux_mainLoop_processed _ _ h
  · exact aux_mainLoop_readme _ _

/-- Witness for claim C10: a catalog response listing 000003, 000001,
000002 in that order is processed as 000001, 000002, 000003. -/
theorem c10_sorted_order_witness :
    (mainNoArgs c10results allOkTrace).exc = none
      ∧ (mainNoArgs c10results allOkTrace).processed.map Prod.fst
          = ["000001", "000002", "000003"] := by
  have hsort : get_dandisets c10results = ["000001", "000002", "000003"] := by
    simp [get_dandisets, c10results, List.insertionSort, List.orderedInsert]
    decide
  have hexc : (mainNoArgs c10results allOkTrace).exc = none := by
    show (mainLoop allOkTrace (get_dandisets c10results)).exc = none
    rw [hsort]
    rfl
  exact ⟨hexc, ((c10_sorted_order c10results allOkTrace).2.2.1 hexc).trans hsort⟩

/-! Claim C8. -/

/-- Two booleans agreeing as propositions are equal. -/
theorem aux_bool_eq_of_iff (a b : Bool) (h : a = true ↔ b = true) : a = b := by
  cases a <;> cases b <;> simp_all

/-- Lowering an uppercase ASCII letter adds 32 to its code point. -/
theorem aux_toLower_eq_of (c : Char) (h : 65 ≤ c.toNat ∧ c.toNat ≤ 90) :
    Char.toLower c = Char.ofNat (c.toNat + 32) := by
  unfold Char.toLower
  simp only [ge_iff_le]
  rw [if_pos ⟨h.1, h.2⟩]

/-- Lowering any character outside the uppercase ASCII range is the
identity. -/
theorem aux_toLower_eq_self (c : Char) (h : ¬(65 ≤ c.toNat ∧ c.toNat ≤ 90)) :
    Char.toLower c = c := by
  unfold Char.toLower
  simp only [ge_iff_le]
  rw [if_neg h]

/-- Lowering a character twice equals lowering it once. -/
theorem aux_toLower_idem (c : Char) :
    Char.toLower (Char.toLower c) = Char.toLower c := by
  by_cases h : 65 ≤ c.toNat ∧ c.toNat ≤ 90
  · rw [aux_toLower_eq_of c h]
    obtain ⟨h1, h2⟩ := h
    generalize c.toNat = m at h1 h2
    interval_cases m <;> decide
  · rw [aux_toLower_eq_self c h]
    exact aux_toLower_eq_self c h

/-- Lowering preserves whitespace status. -/
theorem aux_isWs_toLower (c : Char) : isWsC (Char.toLower c) = isWsC c := by
  unfold isWsC
  by_cases h : 65 ≤ c.toNat ∧ c.toNat ≤ 90
  · rw [aux_toLower_eq_of c h]
    obtain ⟨h1, h2⟩ := h
    have hc : c.isWhitespace = false := by
      unfold Char.isWhitespace
      have e1 : c ≠ ' ' := by intro e; subst e; exact absurd h1 (by decide)
      have e2 : c ≠ '\t' := by intro e; subst e; exact absurd h1 (by decide)
      have e3 : c ≠ '\x0d' := by intro e; subst e; exact absurd h1 (by decide)
      have e4 : c ≠ '\n' := by intro e; subst e; exact absurd h1 (by decide)
      simp [e1, e2, e3, e4]
    rw [hc]
    generalize c.toNat = m at h1 h2
    interval_cases m <;> decide
  · rw [aux_toLower_eq_self c h]

/-- Characterisation of startsWithChars as a leading segment. -/
theorem aux_startsWith_iff (nd : List Char) :
    ∀ h, startsWithChars nd h = true ↔ ∃ t, h = nd ++ t := by
  induction nd with
  | nil =>
    intro h
    exact ⟨fun _ => ⟨h, rfl⟩, fun _ => rfl⟩
  | cons a as ih =>
    intro h
    cases h with
    | nil => simp [startsWithChars]
    | cons b bs =>
      simp only [startsWithChars, Bool.and_eq_true, beq_iff_eq]
      constructor
      · rintro ⟨rfl, hs⟩
        obtain ⟨t, rfl⟩ := (ih bs).mp hs
        exact ⟨t, rfl⟩
      · rintro ⟨t, ht⟩
        injection ht with h1 h2
        exact ⟨h1.symm, (ih bs).mpr ⟨t, h2⟩⟩

/-- Characterisation of hasSub as an internal segment. -/
theorem aux_hasSub_iff (nd : List Char) :
    ∀ h, hasSub nd h = true ↔ ∃ p t, h = p ++ nd ++ t := by
  intro h
  induction h with
  | nil =>
    simp only [hasSub]
    cases nd with
    | nil => simp
    | cons c cs => simp
  | cons c rest ih =>
    simp only [hasSub, Bool.or_eq_true]
    constructor
    · rintro (hs | hh)
      · obtain ⟨t, ht⟩ := (aux_startsWith_iff nd _).mp hs
        exact ⟨[], t, by simpa using ht⟩
      · obtain ⟨p, t, hp⟩ := ih.mp hh
        exact ⟨c :: p, t, by rw [hp]; rfl⟩
    · rintro ⟨p, t, hp⟩
      cases p with
      | nil =>
        exact Or.inl ((aux_startsWith_iff nd _).mpr ⟨t, by simpa using hp⟩)
      | cons q qs =>
        right
        injection hp with h1 h2
        exact ih.mpr ⟨qs, t, h2⟩

/-- Occurrences mirror under reversal, one direction. -/
theorem aux_hasSub_rev_mp (nd l : List Char) (h : hasSub nd l = true) :
    hasSub nd.reverse l.reverse = true := by
  obtain ⟨p, t, rfl⟩ := (aux_hasSub_iff nd l).mp h
  refine (aux_hasSub_iff _ _).mpr ⟨t.reverse, p.reverse, ?_⟩
  simp [List.reverse_append, List.append_assoc]

/-- Occurrences mirror under reversal. -/
theorem aux_hasSub_reverse (nd l : List Char) :
    hasSub nd l.reverse = hasSub nd.reverse l := by
  apply aux_bool_eq_of_iff
  constructor
  · intro h
    simpa using aux_hasSub_rev_mp nd l.reverse h
  · intro h
    simpa using aux_hasSub_rev_mp nd.reverse l h

/-- Dropping leading whitespace across an append whose right part starts
with a non-whitespace character. -/
theorem aux_dropWhile_nonws (p : List Char) (d : Char) (r : List Char)
    (hd : isWsC d = false) :
    List.dropWhile isWsC (p ++ d :: r) = List.dropWhile isWsC p ++ d :: r := by
  rw [List.dropWhile_append]
  split
  · rename_i hemp
    rw [List.isEmpty_iff.mp hemp]
    rw [List.dropWhile_cons_of_neg (by simp [hd])]
    rfl
  · rfl

/-- Dropping leading whitespace of the haystack neither creates nor
destroys an occurrence of a needle that starts with a non-whitespace
character. -/
theorem aux_hasSub_dropWhile (d : Char) (ds : List Char) (l : List Char)
    (hd : isWsC d = false) :
    hasSub (d :: ds) (List.dropWhile isWsC l) = hasSub (d :: ds) l := by
  apply aux_bool_eq_of_iff
  constructor
  · intro h
    obtain ⟨p, t, hp⟩ := (aux_hasSub_iff _ _).mp h
    refine (aux_hasSub_iff _ _).mpr ⟨List.takeWhile isWsC l ++ p, t, ?_⟩
    conv_lhs => rw [← List.takeWhile_append_dropWhile (p := isWsC) (l := l)]
    rw [hp]
    simp [List.append_assoc]
  · intro h
    obtain ⟨p, t, hp⟩ := (aux_hasSub_iff _ _).mp h
    refine (aux_hasSub_iff _ _).mpr ⟨List.dropWhile isWsC p, t, ?_⟩
    rw [hp]
    have hap := aux_dropWhile_nonws p d (ds ++ t) hd
    simpa [List.append_assoc] using hap

/-- Stripping surrounding whitespace of the haystack neither creates nor
destroys an occurrence of a needle whose first and last characters are not
whitespace. -/
theorem aux_stripChars_hasSub (d e : Char) (ds es : List Char) (nd : List Char)
    (hnd : nd = d :: ds) (hd : isWsC d = false)
    (hrev : nd.reverse = e :: es) (he : isWsC e = false) (l : List Char) :
    hasSub nd (stripChars l) = hasSub nd l := by
  unfold stripChars
  rw [aux_hasSub_reverse, hrev]
  rw [aux_hasSub_dropWhile e es _ he]
  rw [← hrev]
  have h2 : hasSub nd.reverse (List.dropWhile isWsC l).reverse
      = hasSub nd.reverse.reverse (List.dropWhile isWsC l) := by
    rw [aux_hasSub_reverse]
  rw [h2, List.reverse_reverse, hnd]
  exact aux_hasSub_dropWhile d ds l hd

/-- Lowering twice equals lowering once, on lists. -/
theorem aux_map_toLower_idem (l : List Char) :
    (l.map Char.toLower).map Char.toLower = l.map Char.toLower := by
  rw [List.map_map]
  apply List.map_congr_left
  intro a _
  exact aux_toLower_idem a

/-- Stripping commutes with lowering, since lowering preserves whitespace
status. -/
theorem aux_stripChars_map (l : List Char) :
    stripChars (l.map Char.toLower) = (stripChars l).map Char.toLower := by
  have hws : isWsC ∘ Char.toLower = isWsC := funext aux_isWs_toLower
  unfold stripChars
  rw [List.dropWhile_map, hws, ← List.map_reverse, List.dropWhile_map, hws,
    ← List.map_reverse]

/-- Claim C8: the login button label check passes exactly when the label,
compared case-insensitively, contains the word "log in"; the assert raises
exactly otherwise.  In particular the label "Log In" passes and the label
"Sign in" fails. -/
theorem c8_login_label_check (label : String) :
    loginCheckPasses label = specContainsLogInCI label
      ∧ loginCheckPasses "Log In" = true
      ∧ loginCheckPasses "Sign in" = false := by
  refine ⟨?_, by decide, by decide⟩
  show hasSub "log in".toList
      (((stripChars label.toList).map Char.toLower).map Char.toLower)
    = hasSub ("log in".toList.map Char.toLower) (label.toList.map Char.toLower)
  rw [aux_map_toLower_idem, ← aux_stripChars_map]
  have hnd : "log in".toList.map Char.toLower = "log in".toList := by decide
  rw [hnd]
  exact aux_stripChars_hasSub 'l' 'n' ['o', 'g', ' ', 'i', 'n']
    ['i', ' ', 'g', 'o', 'l'] _ (by decide) (by decide) (by decide) (by decide)
    (label.toList.map Char.toLower)

/-! Claim C9. -/

/-- Claim C9: the stale-screenshot removal at the start of every trial is
idempotent — when the screenshot file is absent the removal returns the
filesystem unchanged and does not raise, because unlink is called with
missing_ok=True. -/
theorem c9_unlink_idempotent (fs : List String) (ds page : String)
    (h : screenshotPath ds page ∉ fs) :
    removeStaleScreenshot fs ds page = .ok fs := by
  simp [removeStaleScreenshot, pathUnlink, h]

/-- Witness for claim C9: removal on an empty filesystem, where the
landing screenshot of target 000001 is absent, returns it unchanged. -/
theorem c9_unlink_idempotent_witness :
    screenshotPath "000001" "landing" ∉ ([] : List String)
      ∧ removeStaleScreenshot [] "000001" "landing" = .ok [] :=
  ⟨by simp, c9_unlink_idempotent [] "000001" "landing" (by simp)⟩

end Webshots
